import Mathlib

/-!
Verification of the inventory stock-ledger and audit-reconciliation core of
the WebsiteDjango repository.

The embedding follows the Django models:
  - `Stock`, `StockMovement`, `StockAudit` from src/1/modelsGrok.py and
    src/1/models7.py (their `complete_audit` bodies are identical);
  - `WorkerProductAudit` from src/store/models.py.

Database tables become association lists keyed by explicit identity;
`F('quantity') + d` field-expression updates become in-place row updates;
timestamps are abstract naturals supplied by the caller.  Operations that
the source only implies (the Movement Ledger `append` and the Reservation
Manager `reserve` / `release` / `consume`) are modelled from the spec and
say so in their doc comments.
-/

namespace Inventory

/-- A (product_variant id, warehouse id) pair: the (SKU, location) identity
of a stock record. -/
abbrev Pair := Nat × Nat

/-- `Stock` row (modelsGrok.py lines 304-316): `quantity` and
`reserved_quantity` are Django `IntegerField`s, hence `Int`. -/
structure StockRecord where
  quantity : Int
  reserved_quantity : Int
deriving Repr, DecidableEq

/-- `StockMovement.MovementType` choices (modelsGrok.py lines 320-327).
The source's `RETURN` choice is spelled `customerReturn` because `return`
is a Lean keyword. -/
inductive MovementType where
  | sale
  | purchase
  | adjustment
  | customerReturn
  | transferOut
  | transferIn
deriving Repr, DecidableEq

/-- `StockMovement` row (modelsGrok.py lines 318-337): the immutable
ledger entry.  `related_order` and `related_audit` are nullable foreign
keys, kept as `Option Nat` ids; `notes` is a nullable text field. -/
structure MovementEntry where
  product_variant : Nat
  warehouse : Nat
  quantity_changed : Int
  movement_type : MovementType
  related_order : Option Nat
  related_audit : Option Nat
  notes : Option String
deriving Repr, DecidableEq

/-- `StockAudit` row (modelsGrok.py lines 513-524): quantity snapshot at
audit opening, physically counted quantity, completion flag and
timestamp.  `photo_taken` is a nullable image reference kept as an opaque
id. -/
structure StockAudit where
  id : Nat
  product_variant : Nat
  warehouse : Nat
  quantity_before_audit : Int
  quantity_recorded : Int
  photo_taken : Option Nat
  notes : Option String
  is_completed : Bool
  completed_at : Option Nat
deriving Repr, DecidableEq

/-- `StockAudit.quantity_discrepancy` property (modelsGrok.py lines
526-528). -/
def StockAudit.quantity_discrepancy (a : StockAudit) : Int :=
  a.quantity_recorded - a.quantity_before_audit

/-- The persistent state: the `Stock` table (rows keyed by
(product_variant, warehouse)), the `StockMovement` table (newest entry
first), and the `StockAudit` table. -/
structure InvState where
  stocks : List (Pair × StockRecord)
  movements : List MovementEntry
  audits : List StockAudit
deriving Repr, DecidableEq

/-- The empty database. -/
def emptyState : InvState := { stocks := [], movements := [], audits := [] }

/-- First row of the `Stock` table matching the pair (the unique row,
under the `unique_together = [['product_variant', 'warehouse']]`
constraint). -/
def lookupStock : List (Pair × StockRecord) → Pair → Option StockRecord
  | [], _ => none
  | r :: rest, p => if r.1 = p then some r.2 else lookupStock rest p

/-- Row update by key, modelling
`Stock.objects.filter(pk=stock.pk).update(...)`: under the uniqueness
constraint the row's pk and its (product_variant, warehouse) pair select
the same row. -/
def updateRow : List (Pair × StockRecord) → Pair → (StockRecord → StockRecord) → List (Pair × StockRecord)
  | [], _, _ => []
  | r :: rest, p, f =>
    if r.1 = p then (r.1, f r.2) :: updateRow rest p f
    else r :: updateRow rest p f

/-- `Stock.objects.get_or_create(product_variant=..., warehouse=...)`
(used at modelsGrok.py line 535): returns the existing row, or inserts a
fresh row with the field defaults `quantity=0, reserved_quantity=0`. -/
def getOrCreate (s : List (Pair × StockRecord)) (p : Pair) :
    List (Pair × StockRecord) × StockRecord :=
  match lookupStock s p with
  | some r => (s, r)
  | none => (s ++ [(p, ⟨0, 0⟩)], ⟨0, 0⟩)

/-- The record the pair currently denotes: the stored row, or the
would-be-created default row. -/
def recordOrZero (s : List (Pair × StockRecord)) (p : Pair) : StockRecord :=
  (lookupStock s p).getD ⟨0, 0⟩

/-- Current `quantity` for a pair (0 when no row exists yet). -/
def stockQty (s : InvState) (p : Pair) : Int :=
  (recordOrZero s.stocks p).quantity

/-- Current `reserved_quantity` for a pair (0 when no row exists yet). -/
def reservedQty (s : InvState) (p : Pair) : Int :=
  (recordOrZero s.stocks p).reserved_quantity

/-- `Stock.available_quantity` property (modelsGrok.py lines 314-316). -/
def availableQty (s : InvState) (p : Pair) : Int :=
  stockQty s p - reservedQty s p

/-- First `StockAudit` row with the given pk. -/
def lookupAudit : List StockAudit → Nat → Option StockAudit
  | [], _ => none
  | a :: rest, aid => if a.id = aid then some a else lookupAudit rest aid

/-- `StockAudit` row update by pk, modelling
`self.save(update_fields=[...])`. -/
def updateAudit : List StockAudit → Nat → (StockAudit → StockAudit) → List StockAudit
  | [], _, _ => []
  | a :: rest, aid, f =>
    if a.id = aid then f a :: updateAudit rest aid f
    else a :: updateAudit rest aid f

/-- The movement row `StockAudit.complete_audit` inserts when the
discrepancy is non-zero (modelsGrok.py lines 538-545). -/
def adjustmentEntry (a : StockAudit) : MovementEntry :=
  { product_variant := a.product_variant
    warehouse := a.warehouse
    quantity_changed := a.quantity_discrepancy
    movement_type := MovementType.adjustment
    related_order := none
    related_audit := some a.id
    notes := some ("Stock audit " ++ toString a.id) }

/-- `StockAudit.complete_audit` (modelsGrok.py lines 529-549, identical in
models7.py lines 410-445).  Returns the new state together with the
method's result: `none` when no audit row has this pk (the method cannot
be invoked then), `some false` when the audit is already completed (early
return, nothing touched), `some true` on success.  On success it
get-or-creates the stock row, adds the discrepancy to its quantity with a
field-expression update, inserts one adjustment movement iff the
discrepancy is non-zero, and marks the audit completed at time `now`. -/
def completeAudit (s : InvState) (aid : Nat) (now : Nat) : InvState × Option Bool :=
  match lookupAudit s.audits aid with
  | none => (s, none)
  | some a =>
    if a.is_completed then (s, some false)
    else
      let discrepancy := a.quantity_discrepancy
      let p : Pair := (a.product_variant, a.warehouse)
      let stocks1 := (getOrCreate s.stocks p).1
      let stocks2 := updateRow stocks1 p (fun r => { r with quantity := r.quantity + discrepancy })
      let movements2 :=
        if discrepancy = 0 then s.movements else adjustmentEntry a :: s.movements
      let audits2 := updateAudit s.audits aid
        (fun b => { b with is_completed := true, completed_at := some now })
      ({ stocks := stocks2, movements := movements2, audits := audits2 }, some true)

/-- Error taxonomy of spec section 7.  None of these classes exist in the
source tree; they are part of the spec-modelled operations below. -/
inductive LedgerError where
  | NegativeStockError
  | InsufficientAvailableError
  | OverConsumptionError
deriving Repr, DecidableEq

/-- Modelled from the spec: the Movement Ledger `append` operation (spec
section 4.2) is missing from src/ (no function in the source both updates
`Stock.quantity` and inserts a `StockMovement`, other than
`complete_audit`).  Per the spec it atomically applies `delta` to the
stock row's quantity and inserts the MovementEntry, failing with
`NegativeStockError` (and, the transaction rolling back, leaving every
entity unchanged) when the resulting quantity would go below zero. -/
def append (s : InvState) (p : Pair) (delta : Int) (mt : MovementType)
    (causeOrder : Option Nat) : Except LedgerError InvState :=
  let r := (getOrCreate s.stocks p).2
  if r.quantity + delta < 0 then Except.error LedgerError.NegativeStockError
  else Except.ok
    { s with
      stocks := updateRow (getOrCreate s.stocks p).1 p
        (fun b => { b with quantity := b.quantity + delta })
      movements :=
        { product_variant := p.1, warehouse := p.2, quantity_changed := delta
          movement_type := mt, related_order := causeOrder
          related_audit := none, notes := none } :: s.movements }

/-- Modelled from the spec: the Reservation Manager `reserve` operation
(spec sections 4.3 and 9, an acknowledged gap in the source).  Atomically
checks `available_quantity >= amount`; on success increments
`reserved_quantity` by `amount` in the same transaction, otherwise fails
with `InsufficientAvailableError` and no side effects.  Order amounts are
positive counts, hence `Nat`. -/
def reserve (s : InvState) (p : Pair) (amount : Nat) : Except LedgerError InvState :=
  let r := (getOrCreate s.stocks p).2
  if r.quantity - r.reserved_quantity < (amount : Int) then
    Except.error LedgerError.InsufficientAvailableError
  else Except.ok
    { s with
      stocks := updateRow (getOrCreate s.stocks p).1 p
        (fun b => { b with reserved_quantity := b.reserved_quantity + (amount : Int) }) }

/-- Modelled from the spec: the Reservation Manager `release` operation
(spec section 4.3): atomically decrements `reserved_quantity`, clamped at
zero. -/
def release (s : InvState) (p : Pair) (amount : Nat) : InvState :=
  { s with
    stocks := updateRow (getOrCreate s.stocks p).1 p
      (fun b => { b with reserved_quantity := max 0 (b.reserved_quantity - (amount : Int)) }) }

/-- Modelled from the spec: the Reservation Manager `consume` operation
(spec section 4.3): fails with `OverConsumptionError` when
`amount > reserved_quantity`; its quantity decrement goes through the
Movement Ledger append of a `sale` entry for `-amount`, so the ledger's
`NegativeStockError` guard applies to it; otherwise atomically decrements
both `reserved_quantity` and `quantity` and inserts the entry. -/
def consume (s : InvState) (p : Pair) (amount : Nat) (causeOrder : Option Nat) :
    Except LedgerError InvState :=
  let r := (getOrCreate s.stocks p).2
  if r.reserved_quantity < (amount : Int) then
    Except.error LedgerError.OverConsumptionError
  else if r.quantity - (amount : Int) < 0 then
    Except.error LedgerError.NegativeStockError
  else Except.ok
    { s with
      stocks := updateRow (getOrCreate s.stocks p).1 p
        (fun b => { b with
          quantity := b.quantity - (amount : Int)
          reserved_quantity := b.reserved_quantity - (amount : Int) })
      movements :=
        { product_variant := p.1, warehouse := p.2
          quantity_changed := -(amount : Int)
          movement_type := MovementType.sale, related_order := causeOrder
          related_audit := none, notes := none } :: s.movements }

/-- Modelled from the spec: `open_audit` (spec section 4.4) creates a
Pending `StockAudit` row snapshotting the current quantity into
`quantity_before_audit` (in the source this is plain ORM row creation
with the model's defaults `is_completed=False, completed_at=None`).  The
counted value is attached later by `record_count`, so it starts at 0.  A
pk collision is a no-op (pks are unique). -/
def openAudit (s : InvState) (aid : Nat) (p : Pair) : InvState :=
  match lookupAudit s.audits aid with
  | some _ => s
  | none =>
    { s with audits := s.audits ++
        [{ id := aid, product_variant := p.1, warehouse := p.2
           quantity_before_audit := stockQty s p, quantity_recorded := 0
           photo_taken := none, notes := none
           is_completed := false, completed_at := none }] }

/-- Modelled from the spec: `record_count` (spec section 4.4) attaches the
physically counted value to the audit row; it does not touch the stock
row. -/
def recordCount (s : InvState) (aid : Nat) (q : Int) : InvState :=
  { s with audits := updateAudit s.audits aid (fun a => { a with quantity_recorded := q }) }

/-- One invocation of a core operation, with its parameters. -/
inductive Op where
  | append (p : Pair) (delta : Int) (mt : MovementType) (causeOrder : Option Nat)
  | reserve (p : Pair) (amount : Nat)
  | release (p : Pair) (amount : Nat)
  | consume (p : Pair) (amount : Nat) (causeOrder : Option Nat)
  | openAudit (aid : Nat) (p : Pair)
  | recordCount (aid : Nat) (q : Int)
  | completeAudit (aid : Nat) (now : Nat)
deriving Repr, DecidableEq

/-- Executing one operation.  A failing operation's transaction rolls
back, so the state is returned unchanged. -/
def step (s : InvState) : Op → InvState
  | Op.append p delta mt c =>
    match append s p delta mt c with
    | Except.ok s' => s'
    | Except.error _ => s
  | Op.reserve p amount =>
    match reserve s p amount with
    | Except.ok s' => s'
    | Except.error _ => s
  | Op.release p amount => release s p amount
  | Op.consume p amount c =>
    match consume s p amount c with
    | Except.ok s' => s'
    | Except.error _ => s
  | Op.openAudit aid p => openAudit s aid p
  | Op.recordCount aid q => recordCount s aid q
  | Op.completeAudit aid now => (completeAudit s aid now).1

/-- Executing a sequence of operations (failed ones leave the state
unchanged, so this is also the run of the successful subsequence). -/
def run (s : InvState) : List Op → InvState
  | [] => s
  | op :: ops => run (step s op) ops

/-- Sum of `quantity_changed` over the ledger entries of one pair. -/
def movementSum : List MovementEntry → Pair → Int
  | [], _ => 0
  | m :: rest, p =>
    (if (m.product_variant, m.warehouse) = p then m.quantity_changed else 0) +
      movementSum rest p

/-- The ledger-consistency invariant (spec sections 3 and 8): every
pair's stored quantity equals the sum of its ledger entries. -/
def ledgerConsistent (s : InvState) : Prop :=
  ∀ p : Pair, stockQty s p = movementSum s.movements p

/-- Non-negativity of every stored stock row. -/
def allNonneg (s : InvState) : Prop :=
  ∀ r ∈ s.stocks, 0 ≤ r.2.quantity ∧ 0 ≤ r.2.reserved_quantity

/-- Keys of the `Stock` table. -/
def stockKeys (l : List (Pair × StockRecord)) : List Pair := l.map Prod.fst

/-- True when the operation list contains no `complete_audit` call. -/
def noCompleteAudit : List Op → Bool
  | [] => true
  | Op.completeAudit _ _ :: _ => false
  | _ :: ops => noCompleteAudit ops

/-- The committed state of a fallible operation: the new state on
success, the unchanged prior state on rollback. -/
def okState (r : Except LedgerError InvState) (s : InvState) : InvState :=
  match r with
  | Except.ok s' => s'
  | Except.error _ => s

/-- Whether a fallible operation committed. -/
def committed (r : Except LedgerError InvState) : Bool :=
  match r with
  | Except.ok _ => true
  | Except.error _ => false

/-- Concrete pending audit: snapshot 100 at opening, 92 counted (the
worked example of spec section 8). -/
def exAudit : StockAudit :=
  { id := 7, product_variant := 1, warehouse := 1
    quantity_before_audit := 100, quantity_recorded := 92
    photo_taken := none, notes := none
    is_completed := false, completed_at := none }

/-- Concrete state: stock (1,1) currently at quantity 103 (movements
interleaved since the audit opened), reserved 5, with pending `exAudit`. -/
def exState : InvState :=
  { stocks := [((1, 1), ⟨103, 5⟩)], movements := [], audits := [exAudit] }

/-- Concrete pending audit against a pair that has no stock row. -/
def exAuditNoRow : StockAudit :=
  { id := 3, product_variant := 2, warehouse := 4
    quantity_before_audit := 5, quantity_recorded := 2
    photo_taken := none, notes := none
    is_completed := false, completed_at := none }

/-- Concrete state with an audit but no stock row for its pair. -/
def exStateNoRow : InvState :=
  { stocks := [], movements := [], audits := [exAuditNoRow] }

/-- Concrete completed audit. -/
def exAuditDone : StockAudit :=
  { id := 9, product_variant := 6, warehouse := 1
    quantity_before_audit := 30, quantity_recorded := 28
    photo_taken := some 2, notes := none
    is_completed := true, completed_at := some 8 }

/-- Concrete state holding a completed audit. -/
def exStateDone : InvState :=
  { stocks := [((6, 1), ⟨23, 0⟩)], movements := [], audits := [exAuditDone] }

/-- Concrete state with stock (1,1) at quantity 10, reserved 2. -/
def exStateR : InvState :=
  { stocks := [((1, 1), ⟨10, 2⟩)], movements := [], audits := [] }

/-- Operation sequence of the spec section 8 scenario prefix: purchase 50,
reserve 20, consume 20, sale 5, release 10. -/
def exOps : List Op :=
  [Op.append (1, 1) 50 MovementType.purchase none,
   Op.reserve (1, 1) 20,
   Op.consume (1, 1) 20 none,
   Op.append (1, 1) (-5) MovementType.sale none,
   Op.release (1, 1) 10]

/-- Operation sequence whose final audit completion drives quantity
negative: purchase 5, open audit (snapshot 5), record a count of 0, sell
3 (quantity now 2), then complete the audit (discrepancy -5). -/
def negOps : List Op :=
  [Op.append (1, 1) 5 MovementType.purchase none,
   Op.openAudit 1 (1, 1),
   Op.recordCount 1 0,
   Op.append (1, 1) (-3) MovementType.sale none,
   Op.completeAudit 1 99]

end Inventory

namespace WorkerAudit

/-- `WorkerProductAudit` row (src/store/models.py lines 284-297):
`quantity_recorded` is a nullable `PositiveIntegerField`, `photo_taken` a
nullable image reference. -/
structure WorkerProductAudit where
  quantity_recorded : Option Nat
  photo_taken : Option Nat
  is_completed : Bool
  completed_at : Option Nat
deriving Repr, DecidableEq

/-- `WorkerProductAudit.save` (src/store/models.py lines 303-313): when
both `quantity_recorded` and `photo_taken` are set, a not-yet-completed
audit becomes completed at time `now`; when either is missing, a
completed audit is reset to not completed with `completed_at` cleared. -/
def wpaSave (a : WorkerProductAudit) (now : Nat) : WorkerProductAudit :=
  if a.quantity_recorded.isSome ∧ a.photo_taken.isSome then
    if a.is_completed then a
    else { a with is_completed := true, completed_at := some now }
  else
    if a.is_completed then { a with is_completed := false, completed_at := none }
    else a

/-- Concrete completed worker audit: count and photo both present. -/
def exWorkerAudit : WorkerProductAudit :=
  { quantity_recorded := some 5, photo_taken := some 9
    is_completed := true, completed_at := some 10 }

end WorkerAudit

namespace Inventory

/-! ### Association-list lemmas for the `Stock` table -/

theorem lookupStock_updateRow_self (l : List (Pair × StockRecord)) (p : Pair)
    (f : StockRecord → StockRecord) :
    lookupStock (updateRow l p f) p = (lookupStock l p).map f := by
  induction l with
  | nil => rfl
  | cons r rest ih =>
    by_cases h : r.1 = p
    · simp [updateRow, lookupStock, h]
    · simp [updateRow, lookupStock, h, ih]

theorem lookupStock_updateRow_ne (l : List (Pair × StockRecord)) (p q : Pair)
    (f : StockRecord → StockRecord) (h : q ≠ p) :
    lookupStock (updateRow l p f) q = lookupStock l q := by
  induction l with
  | nil => rfl
  | cons r rest ih =>
    by_cases hr : r.1 = p
    · have hne : p ≠ q := Ne.symm h
      simp [updateRow, lookupStock, hr, hne, ih]
    · by_cases hq : r.1 = q
      · simp [updateRow, lookupStock, hr, hq, h]
      · simp [updateRow, lookupStock, hr, hq, h, ih]

theorem updateRow_append (l l' : List (Pair × StockRecord)) (p : Pair)
    (f : StockRecord → StockRecord) :
    updateRow (l ++ l') p f = updateRow l p f ++ updateRow l' p f := by
  induction l with
  | nil => rfl
  | cons r rest ih =>
    by_cases h : r.1 = p <;> simp [updateRow, h, ih]

theorem lookupStock_append (l l' : List (Pair × StockRecord)) (q : Pair) :
    lookupStock (l ++ l') q =
      match lookupStock l q with
      | some r => some r
      | none => lookupStock l' q := by
  induction l with
  | nil => rfl
  | cons r rest ih =>
    by_cases h : r.1 = q <;> simp [lookupStock, h, ih]

theorem getOrCreate_snd (l : List (Pair × StockRecord)) (p : Pair) :
    (getOrCreate l p).2 = recordOrZero l p := by
  unfold getOrCreate recordOrZero
  cases h : lookupStock l p <;> simp [h]

theorem lookupStock_bump_self (l : List (Pair × StockRecord)) (p : Pair)
    (f : StockRecord → StockRecord) :
    lookupStock (updateRow (getOrCreate l p).1 p f) p = some (f (recordOrZero l p)) := by
  unfold getOrCreate recordOrZero
  cases h : lookupStock l p with
  | some r => simp [lookupStock_updateRow_self, h]
  | none =>
    rw [updateRow_append, lookupStock_append, lookupStock_updateRow_self, h]
    simp [updateRow, lookupStock]

theorem lookupStock_bump_ne (l : List (Pair × StockRecord)) (p q : Pair)
    (f : StockRecord → StockRecord) (h : q ≠ p) :
    lookupStock (updateRow (getOrCreate l p).1 p f) q = lookupStock l q := by
  unfold getOrCreate
  cases hl : lookupStock l p with
  | some r => simpa using lookupStock_updateRow_ne l p q f h
  | none =>
    rw [updateRow_append, lookupStock_append, lookupStock_updateRow_ne l p q f h]
    cases hq : lookupStock l q with
    | some r => simp
    | none => simp [updateRow, lookupStock, Ne.symm h, h]

theorem stockKeys_updateRow (l : List (Pair × StockRecord)) (p : Pair)
    (f : StockRecord → StockRecord) :
    stockKeys (updateRow l p f) = stockKeys l := by
  induction l with
  | nil => rfl
  | cons r rest ih =>
    by_cases h : r.1 = p <;> simp [updateRow, stockKeys, h] <;>
      simpa [stockKeys] using ih

theorem lookupStock_eq_none_iff (l : List (Pair × StockRecord)) (p : Pair) :
    lookupStock l p = none ↔ p ∉ stockKeys l := by
  induction l with
  | nil => simp [lookupStock, stockKeys]
  | cons r rest ih =>
    by_cases h : r.1 = p
    · simp [lookupStock, stockKeys, h]
    · simp [lookupStock, stockKeys, h, ih]
      exact fun _ => Ne.symm h

theorem nodup_stockKeys_getOrCreate (l : List (Pair × StockRecord)) (p : Pair)
    (h : (stockKeys l).Nodup) : (stockKeys (getOrCreate l p).1).Nodup := by
  unfold getOrCreate
  cases hl : lookupStock l p with
  | some r => simpa using h
  | none =>
    have hp : p ∉ stockKeys l := (lookupStock_eq_none_iff l p).mp hl
    simp [stockKeys] at h hp ⊢
    simpa [stockKeys, List.nodup_append] using ⟨h, hp⟩

theorem mem_updateRow (l : List (Pair × StockRecord)) (p : Pair)
    (f : StockRecord → StockRecord) (r' : Pair × StockRecord)
    (h : r' ∈ updateRow l p f) :
    (r' ∈ l ∧ r'.1 ≠ p) ∨ ∃ r ∈ l, r.1 = p ∧ r' = (p, f r.2) := by
  induction l with
  | nil => simp [updateRow] at h
  | cons x rest ih =>
    by_cases hx : x.1 = p
    · rw [updateRow, if_pos hx] at h
      rcases List.mem_cons.mp h with h1 | h1
      · exact Or.inr ⟨x, List.mem_cons_self x rest, hx, by rw [h1, hx]⟩
      · rcases ih h1 with h2 | ⟨r, hr, hrp, hre⟩
        · exact Or.inl ⟨List.mem_cons_of_mem x h2.1, h2.2⟩
        · exact Or.inr ⟨r, List.mem_cons_of_mem x hr, hrp, hre⟩
    · rw [updateRow, if_neg hx] at h
      rcases List.mem_cons.mp h with h1 | h1
      · exact Or.inl ⟨by rw [h1]; exact List.mem_cons_self x rest, by rw [h1]; exact hx⟩
      · rcases ih h1 with h2 | ⟨r, hr, hrp, hre⟩
        · exact Or.inl ⟨List.mem_cons_of_mem x h2.1, h2.2⟩
        · exact Or.inr ⟨r, List.mem_cons_of_mem x hr, hrp, hre⟩

theorem lookupStock_of_mem_nodup (l : List (Pair × StockRecord))
    (hnd : (stockKeys l).Nodup) (r : Pair × StockRecord) (hr : r ∈ l) :
    lookupStock l r.1 = some r.2 := by
  induction l with
  | nil => simp at hr
  | cons x rest ih =>
    rcases List.mem_cons.mp hr with h1 | h1
    · rw [h1]; simp [lookupStock]
    · have hx : x.1 ≠ r.1 := by
        intro he
        have : r.1 ∈ stockKeys rest := List.mem_map_of_mem Prod.fst h1
        rw [← he] at this
        exact (List.nodup_cons.mp (by simpa [stockKeys] using hnd)).1 this
      rw [lookupStock, if_neg hx]
      exact ih (List.nodup_cons.mp (by simpa [stockKeys] using hnd)).2 h1

end Inventory

namespace Inventory

/-! ### Lemmas for the `StockAudit` table -/

theorem lookupAudit_id (l : List StockAudit) (aid : Nat) (a : StockAudit)
    (h : lookupAudit l aid = some a) : a.id = aid := by
  induction l with
  | nil => simp [lookupAudit] at h
  | cons x rest ih =>
    by_cases hx : x.id = aid
    · rw [lookupAudit, if_pos hx] at h
      cases h; exact hx
    · rw [lookupAudit, if_neg hx] at h
      exact ih h

theorem lookupAudit_updateAudit_self (l : List StockAudit) (aid : Nat)
    (f : StockAudit → StockAudit) (hid : ∀ b, (f b).id = b.id) :
    lookupAudit (updateAudit l aid f) aid = (lookupAudit l aid).map f := by
  induction l with
  | nil => rfl
  | cons x rest ih =>
    by_cases hx : x.id = aid
    · simp [updateAudit, lookupAudit, hx, hid x]
    · simp [updateAudit, lookupAudit, hx, ih]

theorem lookupAudit_updateAudit_ne (l : List StockAudit) (aid aid' : Nat)
    (f : StockAudit → StockAudit) (hid : ∀ b, (f b).id = b.id) (h : aid' ≠ aid) :
    lookupAudit (updateAudit l aid f) aid' = lookupAudit l aid' := by
  induction l with
  | nil => rfl
  | cons x rest ih =>
    by_cases hx : x.id = aid
    · have : (f x).id = aid := by rw [hid x, hx]
      simp [updateAudit, lookupAudit, hx, this, Ne.symm h, ih,
        show x.id ≠ aid' from by rw [hx]; exact Ne.symm h]
    · by_cases hx' : x.id = aid'
      · simp [updateAudit, lookupAudit, hx, hx', h]
      · simp [updateAudit, lookupAudit, hx, hx', ih]

theorem lookupAudit_append (l l' : List StockAudit) (aid : Nat) :
    lookupAudit (l ++ l') aid =
      match lookupAudit l aid with
      | some a => some a
      | none => lookupAudit l' aid := by
  induction l with
  | nil => rfl
  | cons x rest ih =>
    by_cases hx : x.id = aid <;> simp [lookupAudit, hx, ih]

/-! ### Effect of a stock-row update seen through lookup -/

theorem recordOrZero_bump_self (l : List (Pair × StockRecord)) (p : Pair)
    (f : StockRecord → StockRecord) :
    recordOrZero (updateRow (getOrCreate l p).1 p f) p = f (recordOrZero l p) := by
  unfold recordOrZero
  rw [lookupStock_bump_self]
  rfl

theorem recordOrZero_bump_ne (l : List (Pair × StockRecord)) (p q : Pair)
    (f : StockRecord → StockRecord) (h : q ≠ p) :
    recordOrZero (updateRow (getOrCreate l p).1 p f) q = recordOrZero l q := by
  unfold recordOrZero
  rw [lookupStock_bump_ne _ _ _ _ h]

theorem movementSum_cons (m : MovementEntry) (ms : List MovementEntry) (p : Pair) :
    movementSum (m :: ms) p =
      (if (m.product_variant, m.warehouse) = p then m.quantity_changed else 0) +
        movementSum ms p := rfl

/-! ### Characterization of `complete_audit`'s three branches -/

theorem completeAudit_missing (s : InvState) (aid now : Nat)
    (h : lookupAudit s.audits aid = none) :
    completeAudit s aid now = (s, none) := by
  unfold completeAudit
  rw [h]

theorem completeAudit_completed (s : InvState) (aid now : Nat) (a : StockAudit)
    (hlk : lookupAudit s.audits aid = some a) (hc : a.is_completed = true) :
    completeAudit s aid now = (s, some false) := by
  unfold completeAudit
  rw [hlk]
  simp [hc]

theorem completeAudit_pending (s : InvState) (aid now : Nat) (a : StockAudit)
    (hlk : lookupAudit s.audits aid = some a) (hp : a.is_completed = false) :
    completeAudit s aid now =
      ({ stocks :=
           updateRow (getOrCreate s.stocks (a.product_variant, a.warehouse)).1
             (a.product_variant, a.warehouse)
             (fun r => { r with quantity := r.quantity + a.quantity_discrepancy })
         movements :=
           if a.quantity_discrepancy = 0 then s.movements
           else adjustmentEntry a :: s.movements
         audits :=
           updateAudit s.audits aid
             (fun b => { b with is_completed := true, completed_at := some now }) },
       some true) := by
  unfold completeAudit
  rw [hlk]
  simp [hp]

end Inventory

namespace Inventory

/-! ### Ledger consistency is preserved by every operation -/

theorem ledgerConsistent_append (s : InvState) (p : Pair) (delta : Int)
    (mt : MovementType) (c : Option Nat) (h : ledgerConsistent s) :
    ledgerConsistent (step s (Op.append p delta mt c)) := by
  show ledgerConsistent
    (match append s p delta mt c with
     | Except.ok s' => s'
     | Except.error _ => s)
  unfold append
  by_cases hg : (getOrCreate s.stocks p).2.quantity + delta < 0
  · simp only [if_pos hg]
    exact h
  · simp only [if_neg hg]
    intro q
    by_cases hq : q = p
    · subst hq
      have hs := h q
      simp only [stockQty, movementSum_cons, recordOrZero_bump_self] at *
      simp only [if_true]
      omega
    · have hs := h q
      simp only [stockQty, movementSum_cons,
        recordOrZero_bump_ne s.stocks p q _ hq] at *
      rw [if_neg (Ne.symm hq)]
      omega

theorem ledgerConsistent_reserve (s : InvState) (p : Pair) (amount : Nat)
    (h : ledgerConsistent s) :
    ledgerConsistent (step s (Op.reserve p amount)) := by
  show ledgerConsistent
    (match reserve s p amount with
     | Except.ok s' => s'
     | Except.error _ => s)
  unfold reserve
  by_cases hg : (getOrCreate s.stocks p).2.quantity -
      (getOrCreate s.stocks p).2.reserved_quantity < (amount : Int)
  · simp only [if_pos hg]
    exact h
  · simp only [if_neg hg]
    intro q
    have hs := h q
    by_cases hq : q = p
    · subst hq
      simpa only [stockQty, recordOrZero_bump_self] using hs
    · simpa only [stockQty, recordOrZero_bump_ne s.stocks p q _ hq] using hs

theorem ledgerConsistent_release (s : InvState) (p : Pair) (amount : Nat)
    (h : ledgerConsistent s) :
    ledgerConsistent (step s (Op.release p amount)) := by
  show ledgerConsistent (release s p amount)
  unfold release
  intro q
  have hs := h q
  by_cases hq : q = p
  · subst hq
    simpa only [stockQty, recordOrZero_bump_self] using hs
  · simpa only [stockQty, recordOrZero_bump_ne s.stocks p q _ hq] using hs

theorem ledgerConsistent_consume (s : InvState) (p : Pair) (amount : Nat)
    (c : Option Nat) (h : ledgerConsistent s) :
    ledgerConsistent (step s (Op.consume p amount c)) := by
  show ledgerConsistent
    (match consume s p amount c with
     | Except.ok s' => s'
     | Except.error _ => s)
  unfold consume
  by_cases hg1 : (getOrCreate s.stocks p).2.reserved_quantity < (amount : Int)
  · simp only [if_pos hg1]
    exact h
  · by_cases hg2 : (getOrCreate s.stocks p).2.quantity - (amount : Int) < 0
    · simp only [if_neg hg1, if_pos hg2]
      exact h
    · simp only [if_neg hg1, if_neg hg2]
      intro q
      have hs := h q
      by_cases hq : q = p
      · subst hq
        simp only [stockQty, movementSum_cons, recordOrZero_bump_self] at *
        simp only [if_true]
        omega
      · simp only [stockQty, movementSum_cons,
          recordOrZero_bump_ne s.stocks p q _ hq] at *
        rw [if_neg (Ne.symm hq)]
        omega

theorem ledgerConsistent_openAudit (s : InvState) (aid : Nat) (p : Pair)
    (h : ledgerConsistent s) :
    ledgerConsistent (step s (Op.openAudit aid p)) := by
  show ledgerConsistent (openAudit s aid p)
  unfold openAudit
  cases lookupAudit s.audits aid with
  | some a => exact h
  | none => exact h

theorem ledgerConsistent_recordCount (s : InvState) (aid : Nat) (q : Int)
    (h : ledgerConsistent s) :
    ledgerConsistent (step s (Op.recordCount aid q)) := h

theorem ledgerConsistent_completeAudit (s : InvState) (aid now : Nat)
    (h : ledgerConsistent s) :
    ledgerConsistent (step s (Op.completeAudit aid now)) := by
  show ledgerConsistent (completeAudit s aid now).1
  cases hlk : lookupAudit s.audits aid with
  | none => rw [completeAudit_missing s aid now hlk]; exact h
  | some a =>
    cases hc : a.is_completed with
    | true => rw [completeAudit_completed s aid now a hlk hc]; exact h
    | false =>
      rw [completeAudit_pending s aid now a hlk hc]
      intro q
      have hs := h q
      by_cases hq : q = (a.product_variant, a.warehouse)
      · subst hq
        by_cases hd : a.quantity_discrepancy = 0
        · simp only [stockQty, recordOrZero_bump_self, if_pos hd] at *
          omega
        · simp only [stockQty, recordOrZero_bump_self, if_neg hd,
            movementSum_cons, adjustmentEntry] at *
          simp only [if_true]
          omega
      · by_cases hd : a.quantity_discrepancy = 0
        · simp only [stockQty, if_pos hd,
            recordOrZero_bump_ne s.stocks _ q _ hq] at *
          omega
        · simp only [stockQty, if_neg hd, movementSum_cons, adjustmentEntry,
            recordOrZero_bump_ne s.stocks _ q _ hq] at *
          rw [if_neg (Ne.symm hq)]
          omega

theorem ledgerConsistent_step (s : InvState) (op : Op) (h : ledgerConsistent s) :
    ledgerConsistent (step s op) := by
  cases op with
  | append p delta mt c => exact ledgerConsistent_append s p delta mt c h
  | reserve p amount => exact ledgerConsistent_reserve s p amount h
  | release p amount => exact ledgerConsistent_release s p amount h
  | consume p amount c => exact ledgerConsistent_consume s p amount c h
  | openAudit aid p => exact ledgerConsistent_openAudit s aid p h
  | recordCount aid q => exact ledgerConsistent_recordCount s aid q h
  | completeAudit aid now => exact ledgerConsistent_completeAudit s aid now h

theorem ledgerConsistent_run (s : InvState) (ops : List Op)
    (h : ledgerConsistent s) : ledgerConsistent (run s ops) := by
  induction ops generalizing s with
  | nil => exact h
  | cons op ops ih => exact ih (step s op) (ledgerConsistent_step s op h)

theorem ledgerConsistent_emptyState : ledgerConsistent emptyState := by
  intro p
  rfl

end Inventory

namespace Inventory

/-! ### Key uniqueness is preserved by every operation -/

theorem mem_of_lookupStock (l : List (Pair × StockRecord)) (p : Pair)
    (r : StockRecord) (h : lookupStock l p = some r) : (p, r) ∈ l := by
  induction l with
  | nil => simp [lookupStock] at h
  | cons x rest ih =>
    by_cases hx : x.1 = p
    · rw [lookupStock, if_pos hx] at h
      cases h
      rw [← hx, Prod.mk.eta]
      exact List.mem_cons_self x rest
    · rw [lookupStock, if_neg hx] at h
      exact List.mem_cons_of_mem x (ih h)

theorem nodup_stockKeys_bump (l : List (Pair × StockRecord)) (p : Pair)
    (f : StockRecord → StockRecord) (h : (stockKeys l).Nodup) :
    (stockKeys (updateRow (getOrCreate l p).1 p f)).Nodup := by
  rw [stockKeys_updateRow]
  exact nodup_stockKeys_getOrCreate l p h

theorem nodup_stockKeys_step (s : InvState) (op : Op)
    (h : (stockKeys s.stocks).Nodup) : (stockKeys (step s op).stocks).Nodup := by
  cases op with
  | append p delta mt c =>
    show (stockKeys (match append s p delta mt c with
      | Except.ok s' => s' | Except.error _ => s).stocks).Nodup
    unfold append
    by_cases hg : (getOrCreate s.stocks p).2.quantity + delta < 0
    · simpa only [if_pos hg] using h
    · simpa only [if_neg hg] using nodup_stockKeys_bump s.stocks p _ h
  | reserve p amount =>
    show (stockKeys (match reserve s p amount with
      | Except.ok s' => s' | Except.error _ => s).stocks).Nodup
    unfold reserve
    by_cases hg : (getOrCreate s.stocks p).2.quantity -
        (getOrCreate s.stocks p).2.reserved_quantity < (amount : Int)
    · simpa only [if_pos hg] using h
    · simpa only [if_neg hg] using nodup_stockKeys_bump s.stocks p _ h
  | release p amount =>
    exact nodup_stockKeys_bump s.stocks p _ h
  | consume p amount c =>
    show (stockKeys (match consume s p amount c with
      | Except.ok s' => s' | Except.error _ => s).stocks).Nodup
    unfold consume
    by_cases hg1 : (getOrCreate s.stocks p).2.reserved_quantity < (amount : Int)
    · simpa only [if_pos hg1] using h
    · by_cases hg2 : (getOrCreate s.stocks p).2.quantity - (amount : Int) < 0
      · simpa only [if_neg hg1, if_pos hg2] using h
      · simpa only [if_neg hg1, if_neg hg2] using nodup_stockKeys_bump s.stocks p _ h
  | openAudit aid p =>
    show (stockKeys (openAudit s aid p).stocks).Nodup
    unfold openAudit
    cases lookupAudit s.audits aid with
    | some a => exact h
    | none => exact h
  | recordCount aid q => exact h
  | completeAudit aid now =>
    show (stockKeys (completeAudit s aid now).1.stocks).Nodup
    cases hlk : lookupAudit s.audits aid with
    | none => rw [completeAudit_missing s aid now hlk]; exact h
    | some a =>
      cases hc : a.is_completed with
      | true => rw [completeAudit_completed s aid now a hlk hc]; exact h
      | false =>
        rw [completeAudit_pending s aid now a hlk hc]
        exact nodup_stockKeys_bump s.stocks _ _ h

theorem nodup_stockKeys_run (ops : List Op) (s : InvState)
    (h : (stockKeys s.stocks).Nodup) : (stockKeys (run s ops).stocks).Nodup := by
  induction ops generalizing s with
  | nil => exact h
  | cons op ops ih => exact ih (step s op) (nodup_stockKeys_step s op h)

/-! ### Non-negativity machinery -/

theorem recordOrZero_nonneg (l : List (Pair × StockRecord)) (p : Pair)
    (hall : ∀ r ∈ l, 0 ≤ r.2.quantity ∧ 0 ≤ r.2.reserved_quantity) :
    0 ≤ (recordOrZero l p).quantity ∧ 0 ≤ (recordOrZero l p).reserved_quantity := by
  unfold recordOrZero
  cases hl : lookupStock l p with
  | none => exact ⟨le_refl 0, le_refl 0⟩
  | some r => exact hall (p, r) (mem_of_lookupStock l p r hl)

theorem allNonneg_bump (l : List (Pair × StockRecord)) (p : Pair)
    (f : StockRecord → StockRecord) (hnd : (stockKeys l).Nodup)
    (hall : ∀ r ∈ l, 0 ≤ r.2.quantity ∧ 0 ≤ r.2.reserved_quantity)
    (hf : 0 ≤ (f (recordOrZero l p)).quantity ∧
      0 ≤ (f (recordOrZero l p)).reserved_quantity) :
    ∀ r ∈ updateRow (getOrCreate l p).1 p f,
      0 ≤ r.2.quantity ∧ 0 ≤ r.2.reserved_quantity := by
  intro r' hr'
  rcases mem_updateRow (getOrCreate l p).1 p f r' hr' with ⟨hmem, _⟩ | ⟨r, hr, hrp, hre⟩
  · -- untouched row: it is either an original row or the freshly created zero row
    unfold getOrCreate at hmem
    cases hl : lookupStock l p with
    | some r0 =>
      rw [hl] at hmem
      exact hall r' hmem
    | none =>
      rw [hl] at hmem
      rcases List.mem_append.mp hmem with hmem1 | hmem1
      · exact hall r' hmem1
      · rcases List.mem_singleton.mp hmem1 with rfl
        exact ⟨le_refl 0, le_refl 0⟩
  · -- the updated row is f applied to the row the pair denoted
    have hr2 : r.2 = recordOrZero l p := by
      unfold getOrCreate at hr
      cases hl : lookupStock l p with
      | some r0 =>
        rw [hl] at hr
        have := lookupStock_of_mem_nodup l hnd r hr
        rw [hrp, hl] at this
        cases this
        unfold recordOrZero
        rw [hl]
        rfl
      | none =>
        rw [hl] at hr
        rcases List.mem_append.mp hr with hmem1 | hmem1
        · exfalso
          have : r.1 ∈ stockKeys l := List.mem_map_of_mem Prod.fst hmem1
          rw [hrp] at this
          exact (lookupStock_eq_none_iff l p).mp hl this
        · rcases List.mem_singleton.mp hmem1 with rfl
          unfold recordOrZero
          rw [hl]
          rfl
    rw [hre, hr2]
    exact hf

end Inventory

namespace Inventory

/-! ### Non-negativity is preserved by every non-audit operation -/

theorem goodState_step_no_audit (s : InvState) (op : Op)
    (hop : ∀ aid now, op ≠ Op.completeAudit aid now)
    (hnd : (stockKeys s.stocks).Nodup) (hall : allNonneg s) :
    allNonneg (step s op) := by
  cases op with
  | append p delta mt c =>
    show allNonneg (match append s p delta mt c with
      | Except.ok s' => s' | Except.error _ => s)
    unfold append
    by_cases hg : (getOrCreate s.stocks p).2.quantity + delta < 0
    · simpa only [if_pos hg] using hall
    · simp only [if_neg hg]
      intro r' hr'
      refine allNonneg_bump s.stocks p _ hnd hall ⟨?_, ?_⟩ r' hr'
      · rw [getOrCreate_snd] at hg
        show 0 ≤ (recordOrZero s.stocks p).quantity + delta
        omega
      · exact (recordOrZero_nonneg s.stocks p hall).2
  | reserve p amount =>
    show allNonneg (match reserve s p amount with
      | Except.ok s' => s' | Except.error _ => s)
    unfold reserve
    by_cases hg : (getOrCreate s.stocks p).2.quantity -
        (getOrCreate s.stocks p).2.reserved_quantity < (amount : Int)
    · simpa only [if_pos hg] using hall
    · simp only [if_neg hg]
      intro r' hr'
      refine allNonneg_bump s.stocks p _ hnd hall ⟨?_, ?_⟩ r' hr'
      · exact (recordOrZero_nonneg s.stocks p hall).1
      · have := (recordOrZero_nonneg s.stocks p hall).2
        have hnn : (0 : Int) ≤ (amount : Int) := Int.ofNat_nonneg amount
        show 0 ≤ (recordOrZero s.stocks p).reserved_quantity + (amount : Int)
        omega
  | release p amount =>
    show allNonneg (release s p amount)
    unfold release
    intro r' hr'
    refine allNonneg_bump s.stocks p _ hnd hall ⟨?_, ?_⟩ r' hr'
    · exact (recordOrZero_nonneg s.stocks p hall).1
    · exact le_max_left 0 _
  | consume p amount c =>
    show allNonneg (match consume s p amount c with
      | Except.ok s' => s' | Except.error _ => s)
    unfold consume
    by_cases hg1 : (getOrCreate s.stocks p).2.reserved_quantity < (amount : Int)
    · simpa only [if_pos hg1] using hall
    · by_cases hg2 : (getOrCreate s.stocks p).2.quantity - (amount : Int) < 0
      · simpa only [if_neg hg1, if_pos hg2] using hall
      · simp only [if_neg hg1, if_neg hg2]
        intro r' hr'
        rw [getOrCreate_snd] at hg1 hg2
        refine allNonneg_bump s.stocks p _ hnd hall ⟨?_, ?_⟩ r' hr'
        · show 0 ≤ (recordOrZero s.stocks p).quantity - (amount : Int)
          omega
        · show 0 ≤ (recordOrZero s.stocks p).reserved_quantity - (amount : Int)
          omega
  | openAudit aid p =>
    show allNonneg (openAudit s aid p)
    unfold openAudit
    cases lookupAudit s.audits aid with
    | some a => exact hall
    | none => exact hall
  | recordCount aid q => exact hall
  | completeAudit aid now => exact absurd rfl (hop aid now)

theorem goodState_run_no_audit (ops : List Op) (s : InvState)
    (hops : noCompleteAudit ops = true)
    (hnd : (stockKeys s.stocks).Nodup) (hall : allNonneg s) :
    allNonneg (run s ops) := by
  induction ops generalizing s with
  | nil => exact hall
  | cons op ops ih =>
    have hop : ∀ aid now, op ≠ Op.completeAudit aid now := by
      intro aid now he
      subst he
      simp only [noCompleteAudit, Bool.false_eq_true] at hops
    have hops' : noCompleteAudit ops = true := by
      cases op <;> simp [noCompleteAudit] at hops <;> exact hops
    exact ih (step s op) hops' (nodup_stockKeys_step s op hnd)
      (goodState_step_no_audit s op hop hnd hall)

theorem stockQty_nonneg_of_allNonneg (s : InvState) (hall : allNonneg s) (p : Pair) :
    0 ≤ stockQty s p ∧ 0 ≤ reservedQty s p := by
  exact recordOrZero_nonneg s.stocks p hall

/-! ### A completed audit stays completed under every operation -/

theorem step_audits_unchanged_append (s : InvState) (p : Pair) (delta : Int)
    (mt : MovementType) (c : Option Nat) :
    (step s (Op.append p delta mt c)).audits = s.audits := by
  show (match append s p delta mt c with
    | Except.ok s' => s' | Except.error _ => s).audits = s.audits
  unfold append
  by_cases hg : (getOrCreate s.stocks p).2.quantity + delta < 0
  · simp only [if_pos hg]
  · simp only [if_neg hg]

theorem step_audits_unchanged_reserve (s : InvState) (p : Pair) (amount : Nat) :
    (step s (Op.reserve p amount)).audits = s.audits := by
  show (match reserve s p amount with
    | Except.ok s' => s' | Except.error _ => s).audits = s.audits
  unfold reserve
  by_cases hg : (getOrCreate s.stocks p).2.quantity -
      (getOrCreate s.stocks p).2.reserved_quantity < (amount : Int)
  · simp only [if_pos hg]
  · simp only [if_neg hg]

theorem step_audits_unchanged_consume (s : InvState) (p : Pair) (amount : Nat)
    (c : Option Nat) :
    (step s (Op.consume p amount c)).audits = s.audits := by
  show (match consume s p amount c with
    | Except.ok s' => s' | Except.error _ => s).audits = s.audits
  unfold consume
  by_cases hg1 : (getOrCreate s.stocks p).2.reserved_quantity < (amount : Int)
  · simp only [if_pos hg1]
  · by_cases hg2 : (getOrCreate s.stocks p).2.quantity - (amount : Int) < 0
    · simp only [if_neg hg1, if_pos hg2]
    · simp only [if_neg hg1, if_neg hg2]

theorem completedAudit_step (s : InvState) (op : Op) (aid : Nat) (a : StockAudit)
    (hlk : lookupAudit s.audits aid = some a) (hc : a.is_completed = true) :
    ∃ a', lookupAudit (step s op).audits aid = some a' ∧
      a'.is_completed = true ∧ a'.completed_at = a.completed_at := by
  cases op with
  | append p delta mt c =>
    exact ⟨a, by rw [step_audits_unchanged_append, hlk], hc, rfl⟩
  | reserve p amount =>
    exact ⟨a, by rw [step_audits_unchanged_reserve, hlk], hc, rfl⟩
  | release p amount => exact ⟨a, hlk, hc, rfl⟩
  | consume p amount c =>
    exact ⟨a, by rw [step_audits_unchanged_consume, hlk], hc, rfl⟩
  | openAudit aid' p =>
    refine ⟨a, ?_, hc, rfl⟩
    show lookupAudit (openAudit s aid' p).audits aid = some a
    unfold openAudit
    cases hlk' : lookupAudit s.audits aid' with
    | some b => exact hlk
    | none =>
      show lookupAudit (s.audits ++ _) aid = some a
      rw [lookupAudit_append, hlk]
  | recordCount aid2 q =>
    by_cases he : aid2 = aid
    · subst he
      refine ⟨{ a with quantity_recorded := q }, ?_, hc, rfl⟩
      show lookupAudit (updateAudit s.audits aid2
        (fun b => { b with quantity_recorded := q })) aid2 =
          some { a with quantity_recorded := q }
      rw [lookupAudit_updateAudit_self s.audits aid2
        (fun b => { b with quantity_recorded := q }) (fun b => rfl), hlk]
      rfl
    · refine ⟨a, ?_, hc, rfl⟩
      show lookupAudit (updateAudit s.audits aid2
        (fun b => { b with quantity_recorded := q })) aid = some a
      rw [lookupAudit_updateAudit_ne s.audits aid2 aid
        (fun b => { b with quantity_recorded := q }) (fun b => rfl) (Ne.symm he)]
      exact hlk
  | completeAudit aid2 now =>
    show ∃ a', lookupAudit (completeAudit s aid2 now).1.audits aid = some a' ∧
      a'.is_completed = true ∧ a'.completed_at = a.completed_at
    by_cases he : aid2 = aid
    · subst he
      rw [completeAudit_completed s aid2 now a hlk hc]
      exact ⟨a, hlk, hc, rfl⟩
    · cases hlk' : lookupAudit s.audits aid2 with
      | none =>
        rw [completeAudit_missing s aid2 now hlk']
        exact ⟨a, hlk, hc, rfl⟩
      | some b =>
        cases hcb : b.is_completed with
        | true =>
          rw [completeAudit_completed s aid2 now b hlk' hcb]
          exact ⟨a, hlk, hc, rfl⟩
        | false =>
          rw [completeAudit_pending s aid2 now b hlk' hcb]
          refine ⟨a, ?_, hc, rfl⟩
          show lookupAudit (updateAudit s.audits aid2
            (fun b => { b with is_completed := true, completed_at := some now })) aid =
              some a
          rw [lookupAudit_updateAudit_ne s.audits aid2 aid
            (fun b => { b with is_completed := true, completed_at := some now })
            (fun b => rfl) (Ne.symm he)]
          exact hlk

theorem completedAudit_run (ops : List Op) (s : InvState) (aid : Nat) (a : StockAudit)
    (hlk : lookupAudit s.audits aid = some a) (hc : a.is_completed = true) :
    ∃ a', lookupAudit (run s ops).audits aid = some a' ∧
      a'.is_completed = true ∧ a'.completed_at = a.completed_at := by
  induction ops generalizing s a with
  | nil => exact ⟨a, hlk, hc, rfl⟩
  | cons op ops ih =>
    rcases completedAudit_step s op aid a hlk hc with ⟨a1, h1, h2, h3⟩
    rcases ih (step s op) a1 h1 h2 with ⟨a2, g1, g2, g3⟩
    exact ⟨a2, g1, g2, by rw [g3, h3]⟩

end Inventory

namespace Inventory

/-- C1: Ledger consistency.  After any sequence of operations run from the
empty state (failed operations leave the state unchanged, so this is the
run of the successful subsequence), every (SKU, location) pair's stored
`quantity` equals the sum of `quantity_changed` over all MovementEntry
rows ever appended for that pair; every operation — `complete_audit` from
the source included — preserves the invariant. -/
theorem ledger_consistency (ops : List Op) (p : Pair) :
    stockQty (run emptyState ops) p =
      movementSum (run emptyState ops).movements p :=
  ledgerConsistent_run emptyState ops ledgerConsistent_emptyState p

/-- C2: Discrepancy correctness.  Completing a pending audit succeeds,
changes the audited pair's quantity by exactly
`quantity_recorded - quantity_before_audit` relative to its value at
completion time, and — exactly when that discrepancy is non-zero —
prepends one `adjustment` MovementEntry whose `quantity_changed` is the
discrepancy and whose `related_audit` references the audit. -/
theorem discrepancy_correct (s : InvState) (aid now : Nat) (a : StockAudit)
    (hlk : lookupAudit s.audits aid = some a) (hp : a.is_completed = false) :
    (completeAudit s aid now).2 = some true ∧
    stockQty (completeAudit s aid now).1 (a.product_variant, a.warehouse) =
      stockQty s (a.product_variant, a.warehouse) +
        (a.quantity_recorded - a.quantity_before_audit) ∧
    (completeAudit s aid now).1.movements =
      (if a.quantity_recorded - a.quantity_before_audit = 0 then s.movements
       else
        { product_variant := a.product_variant, warehouse := a.warehouse
          quantity_changed := a.quantity_recorded - a.quantity_before_audit
          movement_type := MovementType.adjustment, related_order := none
          related_audit := some aid
          notes := some ("Stock audit " ++ toString aid) } :: s.movements) := by
  have hid := lookupAudit_id s.audits aid a hlk
  rw [completeAudit_pending s aid now a hlk hp]
  refine ⟨rfl, ?_, ?_⟩
  · show (recordOrZero
      (updateRow (getOrCreate s.stocks (a.product_variant, a.warehouse)).1
        (a.product_variant, a.warehouse)
        (fun r => { r with quantity := r.quantity + a.quantity_discrepancy }))
      (a.product_variant, a.warehouse)).quantity = _
    rw [recordOrZero_bump_self]
    rfl
  · rw [← hid]
    rfl

/-- Witness for C2 at the spec's worked example: snapshot 100, count 92,
quantity 103 at completion time; completion succeeds, quantity moves by
-8 to 95, and exactly one adjustment movement of -8 is created. -/
theorem discrepancy_correct_witness :
    (completeAudit exState 7 42).2 = some true ∧
    stockQty (completeAudit exState 7 42).1 (exAudit.product_variant, exAudit.warehouse) =
      stockQty exState (exAudit.product_variant, exAudit.warehouse) +
        (exAudit.quantity_recorded - exAudit.quantity_before_audit) ∧
    stockQty (completeAudit exState 7 42).1 (1, 1) = 95 ∧
    (completeAudit exState 7 42).1.movements = [adjustmentEntry exAudit] := by
  have h := discrepancy_correct exState 7 42 exAudit rfl rfl
  exact ⟨h.1, h.2.1, by decide, by decide⟩

/-- C3: Audit idempotence.  Completing a pending audit succeeds; a second
`complete_audit` call on the resulting state reports already-completed
(the soft `false` return, not an error) and returns the state unchanged in
every component — no new MovementEntry, no quantity change, no change to
any audit field — so the adjustment is applied exactly once. -/
theorem audit_idempotent (s : InvState) (aid now now2 : Nat) (a : StockAudit)
    (hlk : lookupAudit s.audits aid = some a) (hp : a.is_completed = false) :
    (completeAudit s aid now).2 = some true ∧
    completeAudit (completeAudit s aid now).1 aid now2 =
      ((completeAudit s aid now).1, some false) := by
  constructor
  · rw [completeAudit_pending s aid now a hlk hp]
  · have h1 : lookupAudit (completeAudit s aid now).1.audits aid =
        some { a with is_completed := true, completed_at := some now } := by
      rw [completeAudit_pending s aid now a hlk hp]
      show lookupAudit (updateAudit s.audits aid
        (fun b => { b with is_completed := true, completed_at := some now })) aid = _
      rw [lookupAudit_updateAudit_self s.audits aid
        (fun b => { b with is_completed := true, completed_at := some now })
        (fun b => rfl), hlk]
      rfl
    exact completeAudit_completed _ aid now2 _ h1 rfl

/-- Witness for C3: the concrete pending audit of `exState`, completed
twice. -/
theorem audit_idempotent_witness :
    (completeAudit exState 7 42).2 = some true ∧
    completeAudit (completeAudit exState 7 42).1 7 43 =
      ((completeAudit exState 7 42).1, some false) :=
  audit_idempotent exState 7 42 43 exAudit rfl rfl

end Inventory

namespace Inventory

/-- C4 counterexample: the operation sequence `negOps` (purchase 5, open
an audit snapshotting 5, record a count of 0, sell 3, complete the audit)
runs from the empty state to quantity -3 for pair (1,1), and the audit
completion is reported successful — `complete_audit` performs no
negativity check, so the claimed `NegativeStockError` rejection does not
exist in the code. -/
theorem nonneg_counterexample :
    stockQty (run emptyState negOps) (1, 1) = -3 ∧
    (completeAudit (run emptyState (negOps.take 4)) 1 99).2 = some true := by
  decide

/-- C4 (amended): the spec-modelled ledger and reservation operations
(`append`, `reserve`, `release`, `consume`) never drive any stock row's
`quantity` or `reserved_quantity` below zero — any sequence without a
`complete_audit` call preserves non-negativity from the empty state, the
guarded operations failing with their error and (the transaction rolling
back) leaving the state unchanged — but `complete_audit` applies its
discrepancy unconditionally and can drive `quantity` negative. -/
theorem nonneg_no_audit_ops (ops : List Op) (h : noCompleteAudit ops = true) :
    allNonneg (run emptyState ops) ∧
    ∀ p : Pair, 0 ≤ stockQty (run emptyState ops) p ∧
      0 ≤ reservedQty (run emptyState ops) p := by
  have hall := goodState_run_no_audit ops emptyState h List.nodup_nil
    (by intro r hr; simp [emptyState] at hr)
  exact ⟨hall, fun p => stockQty_nonneg_of_allNonneg _ hall p⟩

/-- Witness for the amended C4 at the concrete audit-free sequence
`exOps`. -/
theorem nonneg_no_audit_ops_witness :
    0 ≤ stockQty (run emptyState exOps) (1, 1) ∧
    0 ≤ reservedQty (run emptyState exOps) (1, 1) :=
  (nonneg_no_audit_ops exOps (by decide)).2 (1, 1)

/-- C6: Stock-record uniqueness and lazy creation.  Every state reachable
from the empty database has pairwise-distinct (SKU, location) keys in the
`Stock` table, and `get_or_create` returns the existing row unchanged
when one exists, otherwise inserting exactly one row with
`quantity=0, reserved_quantity=0`. -/
theorem stock_uniqueness (ops : List Op) :
    (stockKeys (run emptyState ops).stocks).Nodup ∧
    (∀ l : List (Pair × StockRecord), ∀ p : Pair, ∀ r : StockRecord,
      lookupStock l p = some r → getOrCreate l p = (l, r)) ∧
    (∀ l : List (Pair × StockRecord), ∀ p : Pair,
      lookupStock l p = none →
        getOrCreate l p = (l ++ [(p, ⟨0, 0⟩)], ⟨0, 0⟩)) := by
  refine ⟨nodup_stockKeys_run ops emptyState List.nodup_nil, ?_, ?_⟩
  · intro l p r h
    unfold getOrCreate
    rw [h]
  · intro l p h
    unfold getOrCreate
    rw [h]

/-- Witness for C6: key uniqueness after the concrete run `exOps`, and
`get_or_create` returning the existing (1,1) row of `exStateR`. -/
theorem stock_uniqueness_witness :
    (stockKeys (run emptyState exOps).stocks).Nodup ∧
    getOrCreate exStateR.stocks (1, 1) = (exStateR.stocks, ⟨10, 2⟩) :=
  ⟨(stock_uniqueness exOps).1,
   (stock_uniqueness exOps).2.1 exStateR.stocks (1, 1) ⟨10, 2⟩ rfl⟩

/-- C7: Reservation contract.  `reserve` checks
`available_quantity >= amount`; when the check passes it commits,
incrementing exactly the pair's `reserved_quantity` by `amount` in the
same atomic unit (quantity, movements, audits and every other pair's row
untouched); when it fails it returns `InsufficientAvailableError`, the
rolled-back transaction leaving every entity unchanged. -/
theorem reserve_contract (s : InvState) (p : Pair) (amount : Nat) :
    ((amount : Int) ≤ availableQty s p →
      committed (reserve s p amount) = true ∧
      reservedQty (okState (reserve s p amount) s) p =
        reservedQty s p + (amount : Int) ∧
      stockQty (okState (reserve s p amount) s) p = stockQty s p ∧
      (okState (reserve s p amount) s).movements = s.movements ∧
      (okState (reserve s p amount) s).audits = s.audits ∧
      ∀ q : Pair, q ≠ p →
        lookupStock (okState (reserve s p amount) s).stocks q =
          lookupStock s.stocks q) ∧
    (availableQty s p < (amount : Int) →
      reserve s p amount = Except.error LedgerError.InsufficientAvailableError) := by
  have hav : availableQty s p =
      (getOrCreate s.stocks p).2.quantity -
        (getOrCreate s.stocks p).2.reserved_quantity := by
    rw [getOrCreate_snd]
    rfl
  by_cases hg : (getOrCreate s.stocks p).2.quantity -
      (getOrCreate s.stocks p).2.reserved_quantity < (amount : Int)
  · constructor
    · intro hge
      rw [hav] at hge
      omega
    · intro _
      unfold reserve
      rw [if_pos hg]
  · constructor
    · intro _
      unfold reserve
      rw [if_neg hg]
      refine ⟨rfl, ?_, ?_, rfl, rfl, ?_⟩
      · show (recordOrZero (updateRow (getOrCreate s.stocks p).1 p
          (fun b => { b with
            reserved_quantity := b.reserved_quantity + (amount : Int) })) p).reserved_quantity = _
        rw [recordOrZero_bump_self]
        rfl
      · show (recordOrZero (updateRow (getOrCreate s.stocks p).1 p
          (fun b => { b with
            reserved_quantity := b.reserved_quantity + (amount : Int) })) p).quantity = _
        rw [recordOrZero_bump_self]
        rfl
      · intro q hq
        exact lookupStock_bump_ne s.stocks p q _ hq
    · intro hlt
      rw [hav] at hlt
      omega

/-- Witness for C7: reserving 5 of the 8 available units of `exStateR`
commits and moves `reserved_quantity` from 2 to 7. -/
theorem reserve_contract_witness :
    committed (reserve exStateR (1, 1) 5) = true ∧
    reservedQty (okState (reserve exStateR (1, 1) 5) exStateR) (1, 1) =
      reservedQty exStateR (1, 1) + (5 : Int) := by
  have h := (reserve_contract exStateR (1, 1) 5).1 (by decide)
  exact ⟨h.1, h.2.1⟩

/-- C8: Frame property of `complete_audit`.  Any call leaves the audited
pair's `reserved_quantity` unchanged (only `quantity` is touched) and
leaves the stock row of every other (product_variant, warehouse) pair
exactly as it was. -/
theorem completeAudit_frame (s : InvState) (aid now : Nat) (a : StockAudit)
    (hlk : lookupAudit s.audits aid = some a) :
    reservedQty (completeAudit s aid now).1 (a.product_variant, a.warehouse) =
      reservedQty s (a.product_variant, a.warehouse) ∧
    ∀ q : Pair, q ≠ (a.product_variant, a.warehouse) →
      lookupStock (completeAudit s aid now).1.stocks q =
        lookupStock s.stocks q := by
  cases hc : a.is_completed with
  | true =>
    rw [completeAudit_completed s aid now a hlk hc]
    exact ⟨rfl, fun q hq => rfl⟩
  | false =>
    rw [completeAudit_pending s aid now a hlk hc]
    constructor
    · show (recordOrZero (updateRow
        (getOrCreate s.stocks (a.product_variant, a.warehouse)).1
        (a.product_variant, a.warehouse)
        (fun r => { r with quantity := r.quantity + a.quantity_discrepancy }))
        (a.product_variant, a.warehouse)).reserved_quantity = _
      rw [recordOrZero_bump_self]
      rfl
    · intro q hq
      exact lookupStock_bump_ne s.stocks _ q _ hq

/-- Witness for C8: completing `exState`'s audit leaves reserved stock at
(1,1) and the untouched pair (2,2) unchanged. -/
theorem completeAudit_frame_witness :
    reservedQty (completeAudit exState 7 42).1
        (exAudit.product_variant, exAudit.warehouse) =
      reservedQty exState (exAudit.product_variant, exAudit.warehouse) ∧
    lookupStock (completeAudit exState 7 42).1.stocks (2, 2) =
      lookupStock exState.stocks (2, 2) := by
  have h := completeAudit_frame exState 7 42 exAudit rfl
  exact ⟨h.1, h.2 (2, 2) (by decide)⟩

/-- C9: Lazy-creation edge case.  Completing a pending audit whose pair
has no stock row creates the row at quantity 0 and applies the
discrepancy, leaving quantity exactly
`quantity_recorded - quantity_before_audit` — negative included. -/
theorem completeAudit_lazy_create (s : InvState) (aid now : Nat) (a : StockAudit)
    (hlk : lookupAudit s.audits aid = some a) (hp : a.is_completed = false)
    (habs : lookupStock s.stocks (a.product_variant, a.warehouse) = none) :
    (completeAudit s aid now).2 = some true ∧
    stockQty (completeAudit s aid now).1 (a.product_variant, a.warehouse) =
      a.quantity_recorded - a.quantity_before_audit := by
  rw [completeAudit_pending s aid now a hlk hp]
  refine ⟨rfl, ?_⟩
  show (recordOrZero (updateRow
      (getOrCreate s.stocks (a.product_variant, a.warehouse)).1
      (a.product_variant, a.warehouse)
      (fun r => { r with quantity := r.quantity + a.quantity_discrepancy }))
      (a.product_variant, a.warehouse)).quantity = _
  rw [recordOrZero_bump_self]
  unfold recordOrZero
  rw [habs]
  show (0 : Int) + (a.quantity_recorded - a.quantity_before_audit) =
    a.quantity_recorded - a.quantity_before_audit
  exact Int.zero_add _

/-- Witness for C9: `exStateNoRow` has no stock row for pair (2,4);
completing its audit (snapshot 5, count 2) leaves quantity -3. -/
theorem completeAudit_lazy_create_witness :
    (completeAudit exStateNoRow 3 5).2 = some true ∧
    stockQty (completeAudit exStateNoRow 3 5).1 (2, 4) = -3 := by
  have h := completeAudit_lazy_create exStateNoRow 3 5 exAuditNoRow rfl rfl rfl
  exact ⟨h.1, by decide⟩

/-- C5 counterexample: `exWorkerAudit` is a completed WorkerProductAudit;
clearing its photo and re-saving resets `is_completed` to false and
clears `completed_at`, so re-saving after clearing a field does
transition a completed audit back to not-completed. -/
theorem audit_terminal_counterexample :
    WorkerAudit.exWorkerAudit.is_completed = true ∧
    (WorkerAudit.wpaSave
      { WorkerAudit.exWorkerAudit with photo_taken := none } 11).is_completed = false ∧
    (WorkerAudit.wpaSave
      { WorkerAudit.exWorkerAudit with photo_taken := none } 11).completed_at = none := by
  decide

/-- C5 (amended): a completed `StockAudit` is terminal — after any further
operation sequence its row still has `is_completed = true` with
`completed_at` unchanged — but `WorkerProductAudit.save` resets a
completed audit to not-completed with `completed_at` cleared whenever
`quantity_recorded` or `photo_taken` is null. -/
theorem stockAudit_terminal (s : InvState) (ops : List Op) (aid : Nat)
    (a : StockAudit) (hlk : lookupAudit s.audits aid = some a)
    (hc : a.is_completed = true) :
    ((lookupAudit (run s ops).audits aid).map
      (fun b => (b.is_completed, b.completed_at))) = some (true, a.completed_at) ∧
    ∀ w : WorkerAudit.WorkerProductAudit, ∀ now : Nat,
      w.is_completed = true →
      (w.quantity_recorded = none ∨ w.photo_taken = none) →
      (WorkerAudit.wpaSave w now).is_completed = false ∧
      (WorkerAudit.wpaSave w now).completed_at = none := by
  constructor
  · rcases completedAudit_run ops s aid a hlk hc with ⟨a', h1, h2, h3⟩
    rw [h1]
    simp [h2, h3]
  · intro w now hw hnull
    unfold WorkerAudit.wpaSave
    have hb : ¬(w.quantity_recorded.isSome ∧ w.photo_taken.isSome) := by
      rcases hnull with h | h <;> simp [h]
    rw [if_neg hb, if_pos hw]
    exact ⟨rfl, rfl⟩

/-- Witness for the amended C5: the completed audit of `exStateDone`
survives the whole `exOps` run with its completion flag and timestamp
intact. -/
theorem stockAudit_terminal_witness :
    ((lookupAudit (run exStateDone exOps).audits 9).map
      (fun b => (b.is_completed, b.completed_at))) = some (true, some 8) :=
  (stockAudit_terminal exStateDone exOps 9 exAuditDone rfl rfl).1

end Inventory

namespace WorkerAudit

/-- C10: WorkerProductAudit completion invariant.  Provided the stored
row satisfies the save-maintained invariant that `completed_at` is set
exactly when `is_completed` holds, then after `save`: `is_completed`
holds exactly when both `quantity_recorded` and `photo_taken` are
non-null, `completed_at` is non-null exactly when `is_completed` holds,
and saving a completed audit with either field null resets it with
`completed_at` cleared. -/
theorem workerAudit_save_invariant (a : WorkerProductAudit) (now : Nat)
    (hinv : a.completed_at.isSome = a.is_completed) :
    (wpaSave a now).is_completed =
      (a.quantity_recorded.isSome && a.photo_taken.isSome) ∧
    (wpaSave a now).completed_at.isSome = (wpaSave a now).is_completed ∧
    (a.is_completed = true →
      (a.quantity_recorded = none ∨ a.photo_taken = none) →
      (wpaSave a now).is_completed = false ∧
      (wpaSave a now).completed_at = none) := by
  rcases a with ⟨qr, pt, ic, ca⟩
  cases qr <;> cases pt <;> cases ic <;> cases ca <;>
    simp_all [wpaSave]

/-- Witness for C10: saving a previously completed audit whose photo is
null resets completion. -/
theorem workerAudit_save_invariant_witness :
    (wpaSave { quantity_recorded := some 4, photo_taken := none
               is_completed := true, completed_at := some 6 } 12).is_completed = false ∧
    (wpaSave { quantity_recorded := some 4, photo_taken := none
               is_completed := true, completed_at := some 6 } 12).completed_at = none := by
  have h := workerAudit_save_invariant
    { quantity_recorded := some 4, photo_taken := none
      is_completed := true, completed_at := some 6 } 12 rfl
  exact h.2.2 rfl (Or.inr rfl)

end WorkerAudit
